import Mathlib

/-!
Shallow embedding of the `line_stamp` sticker generator
(`line_stamp_tool/generator.py`, `line_stamp_tool/config.py`) and proofs
about its specification.

Modelling conventions:
* Python `int` is `ℤ`, Python `float` is `ℚ` (the values reached here are
  small enough that IEEE doubles behave exactly like the corresponding
  rationals in every comparison the code performs).
* Python `int(x)` on a float truncates toward zero: `pyInt`.
* Strings are processed as `List Char`; `str.strip` is modelled over
  ASCII whitespace.  The Unicode-aware collaborators `unicodedata.normalize`,
  `str.isalnum` and `str.lower` enter the embedding as function parameters
  (`nfkd`, `isAlnum`, `lower`), so the slug theorems hold for the real
  Unicode functions, including non-ASCII (e.g. Japanese) text.
* The PIL font/measure primitives are external collaborators; they enter
  the embedding as function parameters (`m` for `_text_length`, `lh` for
  `_line_height`), so every theorem quantifies over all possible fonts.
-/

namespace LineStamp

/-- Python `int()` applied to a float/rational: truncation toward zero. -/
def pyInt (q : ℚ) : ℤ :=
  if q < 0 then ⌈q⌉ else ⌊q⌋

/-- Characters removed by Python `str.strip()` (ASCII whitespace). -/
def isPyWs (c : Char) : Bool :=
  c = ' ' || c = '\t' || c = '\n' || c = '\r' || c = '\x0b' || c = '\x0c'

/-- Python `str.strip()` on a character list. -/
def pyStrip (cs : List Char) : List Char :=
  ((cs.dropWhile isPyWs).reverse.dropWhile isPyWs).reverse

/-- ASCII hexadecimal digit. -/
def isHexCh (c : Char) : Bool :=
  ('0' ≤ c && c ≤ '9') || ('a' ≤ c && c ≤ 'f') || ('A' ≤ c && c ≤ 'F')

/-- Value of an ASCII hexadecimal digit. -/
def hexVal (c : Char) : ℤ :=
  if '0' ≤ c && c ≤ '9' then (c.toNat : ℤ) - ('0'.toNat : ℤ)
  else if 'a' ≤ c && c ≤ 'f' then (c.toNat : ℤ) - ('a'.toNat : ℤ) + 10
  else (c.toNat : ℤ) - ('A'.toNat : ℤ) + 10

/-- Python `int(s, 16)` restricted to two-character strings, as used by
`_parse_color` on each channel slice.  Besides plain hex pairs, Python's
`int` accepts a sign (`+`/`-`) before a single digit and surrounding
whitespace, so e.g. `int("+1", 16) = 1`, `int("-1", 16) = -1`,
`int(" f", 16) = 15`. -/
def pyIntHex2 (a b : Char) : Option ℤ :=
  if isHexCh a && isHexCh b then some (16 * hexVal a + hexVal b)
  else if a = '+' && isHexCh b then some (hexVal b)
  else if a = '-' && isHexCh b then some (-(hexVal b))
  else if isPyWs a && isHexCh b then some (hexVal b)
  else if isHexCh a && isPyWs b then some (hexVal a)
  else none

/-- Error raised by `_parse_color` (all three are Python `ValueError`s). -/
inductive ColorErr where
  | unsupportedFormat
  | invalidHex
  | invalidLiteral
  deriving DecidableEq, Repr

/-- The four sequential `int(raw[i:i+2], 16)` conversions of `_parse_color`:
all four must succeed, otherwise Python's `int` raises `ValueError`. -/
def quadToColor (o1 o2 o3 o4 : Option ℤ) : Except ColorErr (ℤ × ℤ × ℤ × ℤ) :=
  match o1, o2, o3, o4 with
  | some r, some g, some b, some a => .ok (r, g, b, a)
  | _, _, _, _ => .error .invalidLiteral

/-- `_parse_color` (generator.py 25–40) on a character list: strip, require
a leading `#`, duplicate each digit of a 3-digit body, append `FF` to a
6-digit body, require 8 characters, then convert the four 2-character
slices with `int(·, 16)`. -/
def parseColorChars (cs : List Char) : Except ColorErr (ℤ × ℤ × ℤ × ℤ) :=
  match pyStrip cs with
  | [] => .error .unsupportedFormat
  | c :: body =>
    if c = '#' then
      let body1 := if body.length = 3 then (body.map fun ch => [ch, ch]).flatten else body
      let body2 := if body1.length = 6 then body1 ++ ['F', 'F'] else body1
      match body2 with
      | [r1, r2, g1, g2, b1, b2, a1, a2] =>
        quadToColor (pyIntHex2 r1 r2) (pyIntHex2 g1 g2) (pyIntHex2 b1 b2) (pyIntHex2 a1 a2)
      | _ => .error .invalidHex
    else .error .unsupportedFormat

/-- `_parse_color` on a `String`. -/
def _parse_color (value : String) : Except ColorErr (ℤ × ℤ × ℤ × ℤ) :=
  parseColorChars value.toList

/-- A two-character slice accepted by Python `int(·, 16)`: a hex pair, a
signed single digit, or a whitespace-padded single digit. -/
def okPair (a b : Char) : Bool :=
  (isHexCh a && isHexCh b) || ((a = '+' || a = '-') && isHexCh b)
    || (isPyWs a && isHexCh b) || (isHexCh a && isPyWs b)

/-- Body shapes (after the `#`) on which `_parse_color` succeeds. -/
def validColorBody : List Char → Bool
  | [a, b, c] => isHexCh a && isHexCh b && isHexCh c
  | [a, b, c, d, e, f] => okPair a b && okPair c d && okPair e f
  | [a, b, c, d, e, f, g, h] => okPair a b && okPair c d && okPair e f && okPair g h
  | _ => false

/-- The exact shape of (already stripped) inputs on which `_parse_color`
succeeds: `#` followed by 3 hex digits, or by 6 or 8 characters whose
2-character slices are each accepted by Python `int(·, 16)`. -/
def validColorChars (cs : List Char) : Bool :=
  match cs with
  | [] => false
  | c :: body => c = '#' && validColorBody body

/-- Text region height computed by `_render_base` (generator.py 84–88):
`available_height = height − padding·2`; when the sticker has art,
`image_reserved_height = int(available_height · image_area_ratio)`; the
text box is `max(available_height − reserved, int(available_height · 0.35))`.
Python `int()` truncates toward zero (`pyInt`). -/
def text_box_height (height padding : ℤ) (image_area_ratio : ℚ) (has_art : Bool) : ℤ :=
  let available_height : ℤ := height - padding * 2
  let image_reserved_height : ℤ :=
    if has_art then pyInt ((available_height : ℚ) * image_area_ratio) else 0
  max (available_height - image_reserved_height)
    (pyInt ((available_height : ℚ) * (35 / 100)))

/-- The claim's formula for the text region height, with `floor` in place of
Python `int()` truncation. -/
def text_box_height_floor (height padding : ℤ) (image_area_ratio : ℚ) : ℤ :=
  let ah : ℤ := height - padding * 2
  max (ah - ⌊(ah : ℚ) * image_area_ratio⌋) ⌊(ah : ℚ) * (35 / 100)⌋

/-- Which branch `_resize_for_target` takes. -/
inductive ResizeMode where
  | plainResize
  | cropFit
  deriving DecidableEq, Repr

/-- Dimension-level model of PIL `Image.resize(size, LANCZOS)`: the output
has exactly the requested size (library collaborator, spec §1). -/
def pil_resize (size : ℕ × ℕ) : ℕ × ℕ := size

/-- Dimension-level model of `ImageOps.fit(image, size, LANCZOS,
centering=(0.5, 0.5))`: center-crop to the target ratio, then resize; the
output has exactly the requested size (library collaborator, spec §1). -/
def pil_fit (size : ℕ × ℕ) : ℕ × ℕ := size

/-- `_resize_for_target` (generator.py 308–313) at the level of image
dimensions, also recording which branch is taken: plain resize when the
source and target aspect ratios differ by at most `0.01`, otherwise
center-crop-and-fit. -/
def _resize_for_target (image : ℕ × ℕ) (size : ℕ × ℕ) : ResizeMode × (ℕ × ℕ) :=
  let src_ratio : ℚ := (image.1 : ℚ) / (image.2 : ℚ)
  let target_ratio : ℚ := (size.1 : ℚ) / (size.2 : ℚ)
  if |src_ratio - target_ratio| ≤ 1 / 100 then (.plainResize, pil_resize size)
  else (.cropFit, pil_fit size)

/-- The character loop of `_wrap_text` (generator.py 245–261), carried out
on the accumulated `lines` and the `current` line.  `m` models
`self._text_length(·, font)` for the font in use (a non-negative integer:
the ceiling of PIL's `textlength`); `maxW` is the width budget. -/
def wrapGo (m : List Char → ℕ) (maxW : ℤ) :
    List (List Char) → List Char → List Char → List (List Char)
  | lines, current, [] => if current ≠ [] ∨ lines = [] then lines ++ [current] else lines
  | lines, current, c :: rest =>
    if c = '\n' then wrapGo m maxW (lines ++ [current]) [] rest
    else if (m (current ++ [c]) : ℤ) ≤ maxW ∨ current = [] then
      wrapGo m maxW lines (current ++ [c]) rest
    else wrapGo m maxW (lines ++ [current]) [c] rest

/-- `_wrap_text` (generator.py 237–261): empty text wraps to a single empty
line, otherwise run the character loop. -/
def _wrap_text (m : List Char → ℕ) (maxW : ℤ) (text : List Char) : List (List Char) :=
  if text = [] then [[]] else wrapGo m maxW [] [] text

/-- A layout as returned by `_layout_text`: the chosen font (identified by
its size), the wrapped lines, the line height and the inter-line gap. -/
structure Layout where
  fontSize : ℕ
  lines : List (List Char)
  lineHeight : ℕ
  lineGap : ℕ
  deriving DecidableEq, Repr

/-- The line gap of `_measure_block` (generator.py 226):
`max(0, floor(line_height * max(0.0, line_spacing - 1.0)))`. -/
def line_gap (lineHeight : ℕ) (line_spacing : ℚ) : ℕ :=
  (max 0 ⌊(lineHeight : ℚ) * max 0 (line_spacing - 1)⌋).toNat

/-- `_block_height` (generator.py 231–235). -/
def _block_height (lineCount lineHeight lineGap : ℕ) : ℕ :=
  if lineCount = 0 then 0 else lineCount * lineHeight + (lineCount - 1) * lineGap

/-- `_measure_block` (generator.py 219–229): line height, line gap, total
block height and widest line width (`max(..., default=0)`).  `lineHeight`
models `self._line_height(font)`. -/
def _measure_block (m : List Char → ℕ) (lineHeight : ℕ) (lines : List (List Char))
    (line_spacing : ℚ) : ℕ × ℕ × ℕ × ℕ :=
  let gap := line_gap lineHeight line_spacing
  (lineHeight, gap, _block_height lines.length lineHeight gap, (lines.map m).foldr max 0)

/-- The `while size >= min_size` loop of `_layout_text` (generator.py
204–217), including the fallback to the floor size.  `m size` is the text
measure of the font `_get_font(size)`, `lh size` its line height. -/
def layoutLoop (m : ℕ → List Char → ℕ) (lh : ℕ → ℕ) (spacing : ℚ)
    (text : List Char) (maxW maxH : ℤ) (base : ℕ) (size : ℕ) : Layout :=
  let min_size := max 20 (base / 4)
  if h : min_size ≤ size then
    let lines := _wrap_text (m size) maxW text
    let mb := _measure_block (m size) (lh size) lines spacing
    if (mb.2.2.1 : ℤ) ≤ maxH ∧ (mb.2.2.2 : ℤ) ≤ maxW then
      ⟨size, lines, mb.1, mb.2.1⟩
    else layoutLoop m lh spacing text maxW maxH base (size - 4)
  else
    let lines := _wrap_text (m min_size) maxW text
    ⟨min_size, lines, lh min_size, line_gap (lh min_size) spacing⟩
termination_by size
decreasing_by omega

/-- `_layout_text` (generator.py 196–217): shrink-to-fit search starting at
the base font size. -/
def _layout_text (m : ℕ → List Char → ℕ) (lh : ℕ → ℕ) (spacing : ℚ)
    (text : List Char) (maxW maxH : ℤ) (base : ℕ) : Layout :=
  layoutLoop m lh spacing text maxW maxH base base

/-- Number of iterations the `while` loop of `_layout_text` executes
(wrap-and-measure passes, not counting the fallback wrap). -/
def layoutSteps (m : ℕ → List Char → ℕ) (lh : ℕ → ℕ) (spacing : ℚ)
    (text : List Char) (maxW maxH : ℤ) (base : ℕ) (size : ℕ) : ℕ :=
  let min_size := max 20 (base / 4)
  if h : min_size ≤ size then
    let lines := _wrap_text (m size) maxW text
    let mb := _measure_block (m size) (lh size) lines spacing
    if (mb.2.2.1 : ℤ) ≤ maxH ∧ (mb.2.2.2 : ℤ) ≤ maxW then 1
    else 1 + layoutSteps m lh spacing text maxW maxH base (size - 4)
  else 0
termination_by size
decreasing_by omega

/-- The decreasing sequence of candidate font sizes the spec describes:
from `size` down in steps of 4 while at least `max(20, base//4)`. -/
def sizesFrom (base : ℕ) (size : ℕ) : List ℕ :=
  if h : max 20 (base / 4) ≤ size then size :: sizesFrom base (size - 4) else []
termination_by size
decreasing_by omega

/-- The spec's acceptance test at a size: wrap the text, then require block
height `lines x line_height + (lines-1) x line_gap` (with
`line_gap = floor(line_height x max(0, line_spacing-1))`) within the
available height and the widest line within the available width. -/
def specFits (m : ℕ → List Char → ℕ) (lh : ℕ → ℕ) (spacing : ℚ)
    (text : List Char) (maxW maxH : ℤ) (size : ℕ) : Bool :=
  let lines := _wrap_text (m size) maxW text
  let gap := (⌊(lh size : ℚ) * max 0 (spacing - 1)⌋).toNat
  let blockH := lines.length * lh size + (lines.length - 1) * gap
  let widest := (lines.map (m size)).foldr max 0
  decide ((blockH : ℤ) ≤ maxH) && decide ((widest : ℤ) ≤ maxW)

/-- The layout produced for a given font size (used both for an accepted
size and for the floor-size fallback). -/
def layoutAt (m : ℕ → List Char → ℕ) (lh : ℕ → ℕ) (spacing : ℚ)
    (text : List Char) (maxW : ℤ) (size : ℕ) : Layout :=
  ⟨size, _wrap_text (m size) maxW text, lh size, line_gap (lh size) spacing⟩

/-- `IllustrationSpec` (config.py 29–36). -/
structure IllustrationSpec where
  enabled : Bool := false
  style : String := "blob"
  face_color : String := "#FFD166"
  outline_color : String := "#2F2F2F"
  accent_color : Option String := none
  expression : String := "smile"
  deriving DecidableEq, Repr

/-- `StickerSpec` (config.py 48–64).  Strings that undergo character
processing (`text`, `slug`) are kept as `List Char`. -/
structure StickerSpec where
  text : List Char
  slug : Option (List Char) := none
  background_color : String := "#FFFFFF"
  text_color : String := "#000000"
  text_shadow_color : Option String := none
  text_shadow_offset : ℤ × ℤ := (8, 8)
  text_stroke_color : Option String := none
  text_stroke_width : ℤ := 0
  padding : ℤ := 90
  line_spacing : ℚ := 21/20
  image_path : Option String := none
  image_area_ratio : ℚ := 9/20
  image_bottom_margin : ℤ := 40
  background_image : Option String := none
  illustration : Option IllustrationSpec := none
  deriving DecidableEq, Repr

/-- The art resolved for a sticker by `_obtain_art_image`: either the image
loaded from an explicit path (converted to RGBA) or the synthesized
illustration. -/
inductive ArtSource where
  | image (path : String)
  | illustration (spec : IllustrationSpec)
  deriving DecidableEq, Repr

/-- The illustration arm of `_obtain_art_image` (generator.py 366–368):
`if spec.illustration and spec.illustration.enabled` — a dataclass instance
is always truthy, so this tests presence and the `enabled` flag. -/
def artFromIllustration (spec : StickerSpec) : Option ArtSource :=
  match spec.illustration with
  | some il => if il.enabled then some (.illustration il) else none
  | none => none

/-- `_obtain_art_image` (generator.py 361–368).  `fileExists` models the
filesystem lookup inside `_resolve_path`, which raises `FileNotFoundError`
for a missing asset; `if spec.image_path:` is Python truthiness, so an
empty-string path falls through to the illustration. -/
def _obtain_art_image (fileExists : String → Bool) (spec : StickerSpec) :
    Except String (Option ArtSource) :=
  match spec.image_path with
  | some p =>
    if ¬ p.isEmpty then
      if fileExists p then .ok (some (.image p)) else .error "Asset not found"
    else .ok (artFromIllustration spec)
  | none => .ok (artFromIllustration spec)

/-- One pass of Python `slug.replace("--", "-")`: replace every
non-overlapping occurrence of `--`, scanning left to right. -/
def replaceDD : List Char → List Char
  | [] => []
  | [c] => [c]
  | c1 :: c2 :: rest =>
    if c1 = '-' ∧ c2 = '-' then '-' :: replaceDD rest
    else c1 :: replaceDD (c2 :: rest)

/-- Python `"--" in slug`. -/
def hasDD : List Char → Bool
  | [] => false
  | [_] => false
  | a :: b :: rest => (a = '-' && b = '-') || hasDD (b :: rest)

/-- The `while "--" in slug: slug = slug.replace("--", "-")` loop of
`_slugify`, with explicit fuel; each pass strictly shortens the list, so
`cs.length` passes always suffice (`collapseDashes_no_hasDD` below shows
the loop indeed reaches its exit condition within the fuel). -/
def collapseDashesFuel : ℕ → List Char → List Char
  | 0, cs => cs
  | fuel + 1, cs => if hasDD cs then collapseDashesFuel fuel (replaceDD cs) else cs

/-- The dash-collapsing loop of `_slugify` (generator.py 52–53). -/
def collapseDashes (cs : List Char) : List Char :=
  collapseDashesFuel cs.length cs

/-- The characters stripped by `slug.strip("-_ ")`. -/
def stripSet (c : Char) : Bool :=
  c = '-' || c = '_' || c = ' '

/-- Python `str.strip("-_ ")`. -/
def stripChars (cs : List Char) : List Char :=
  ((cs.dropWhile stripSet).reverse.dropWhile stripSet).reverse

/-- `_slugify` (generator.py 43–54).  The Unicode collaborators are
parameters: `nfkd` models `unicodedata.normalize("NFKD", ·)`, `isAlnum`
models the Unicode-aware `char.isalnum()` (which accepts e.g. kana/CJK),
and `lower` models `char.lower()` (whose result may be more than one
character; the appended pieces are joined, hence the flattening `++`). -/
def _slugify (nfkd : List Char → List Char) (isAlnum : Char → Bool)
    (lower : Char → List Char) (source : List Char) : List Char :=
  let normalized := nfkd source
  let ascii_only := normalized.foldr
    (fun c acc =>
      if isAlnum c then lower c ++ acc
      else if c = ' ' ∨ c = '-' ∨ c = '_' then '-' :: acc
      else acc) []
  stripChars (collapseDashes ascii_only)

/-- `f"stamp_{index:02d}"`: zero-pad to two digits. -/
def stampName (index : ℕ) : List Char :=
  "stamp_".toList ++ (if index < 10 then '0' :: (toString index).toList else (toString index).toList)

/-- The derived-slug-or-fallback arm of `_ensure_slug` (generator.py
318–321). -/
def slugFromText (nfkd : List Char → List Char) (isAlnum : Char → Bool)
    (lower : Char → List Char) (spec : StickerSpec) (index : ℕ) : List Char :=
  let derived := _slugify nfkd isAlnum lower spec.text
  if derived ≠ [] then derived else stampName index

/-- `_ensure_slug` (generator.py 315–321): `if spec.slug:` is Python
truthiness, so an empty-string slug also falls through to derivation. -/
def _ensure_slug (nfkd : List Char → List Char) (isAlnum : Char → Bool)
    (lower : Char → List Char) (spec : StickerSpec) (index : ℕ) : List Char :=
  match spec.slug with
  | some s => if s ≠ [] then s else slugFromText nfkd isAlnum lower spec index
  | none => slugFromText nfkd isAlnum lower spec index

/-- The slugs assigned by `generate_all` (generator.py 68–74):
`enumerate(self.config.stickers, start=1)`. -/
def slugsFrom (nfkd : List Char → List Char) (isAlnum : Char → Bool)
    (lower : Char → List Char) (i : ℕ) : List StickerSpec → List (List Char)
  | [] => []
  | spec :: rest =>
    _ensure_slug nfkd isAlnum lower spec i :: slugsFrom nfkd isAlnum lower (i + 1) rest

/-- Slugs of all stickers, 1-based as in `generate_all`. -/
def stickerSlugs (nfkd : List Char → List Char) (isAlnum : Char → Bool)
    (lower : Char → List Char) (stickers : List StickerSpec) : List (List Char) :=
  slugsFrom nfkd isAlnum lower 1 stickers

/-- The per-category export file name `f"{slug}_{category}.png"`
(generator.py 305). -/
def exportFileName (slug : List Char) (category : String) : String :=
  String.mk slug ++ "_" ++ category ++ ".png"

/-- A raw configuration value as decoded from JSON/YAML (Python object).
Floats are modelled as exact rationals. -/
inductive PyVal where
  | vnone
  | vbool (b : Bool)
  | vint (n : ℤ)
  | vnum (q : ℚ)
  | vstr (s : String)
  | vlist (xs : List PyVal)
  deriving Repr

/-- The two Python exception kinds `_as_tuple` distinguishes: it catches
`TypeError` but lets `ValueError` propagate. -/
inductive PyErr where
  | typeError
  | valueError
  deriving DecidableEq, Repr

/-- Value of a list of ASCII digits. -/
def digitsToNat (cs : List Char) : ℕ :=
  cs.foldl (fun a c => 10 * a + (c.toNat - 48)) 0

/-- Python `int(s)` on a string (base 10): optional surrounding whitespace,
optional sign, one or more digits.  (Underscore separators and non-ASCII
digits are out of model scope.) -/
def pyParseInt (s : String) : Option ℤ :=
  let cs := pyStrip s.toList
  let signed : ℤ × List Char :=
    match cs with
    | '+' :: rest => (1, rest)
    | '-' :: rest => (-1, rest)
    | _ => (1, cs)
  if signed.2 ≠ [] ∧ signed.2.all Char.isDigit then
    some (signed.1 * digitsToNat signed.2)
  else none

/-- Python `float(s)` on a string: optional whitespace and sign, then
`digits`, `digits.digits`, `.digits` or `digits.`.  (Exponents, `inf`,
`nan` and underscore separators are out of model scope.) -/
def pyParseFloat (s : String) : Option ℚ :=
  let cs := pyStrip s.toList
  let signed : ℚ × List Char :=
    match cs with
    | '+' :: rest => (1, rest)
    | '-' :: rest => (-1, rest)
    | _ => (1, cs)
  let intPart := signed.2.takeWhile Char.isDigit
  let rest := signed.2.dropWhile Char.isDigit
  match rest with
  | [] =>
    if intPart = [] then none
    else some (signed.1 * (digitsToNat intPart : ℚ))
  | '.' :: frac =>
    if frac.all Char.isDigit ∧ (intPart ≠ [] ∨ frac ≠ []) then
      some (signed.1 * ((digitsToNat intPart : ℚ) + (digitsToNat frac : ℚ) / (10 : ℚ) ^ frac.length))
    else none
  | _ => none

/-- Python `float(x)`.  `_as_float` catches both `TypeError` and
`ValueError`, so a plain `Option` suffices. -/
def pyFloatOpt : PyVal → Option ℚ
  | .vint n => some n
  | .vnum q => some q
  | .vbool b => some (if b then 1 else 0)
  | .vstr s => pyParseFloat s
  | .vnone => none
  | .vlist _ => none

/-- Python `int(x)` with the raised exception kind: `TypeError` for `None`
and lists, `ValueError` for unparsable strings. -/
def pyIntE : PyVal → Except PyErr ℤ
  | .vint n => .ok n
  | .vbool b => .ok (if b then 1 else 0)
  | .vnum q => .ok (pyInt q)
  | .vstr s =>
    match pyParseInt s with
    | some n => .ok n
    | none => .error .valueError
  | .vnone => .error .typeError
  | .vlist _ => .error .typeError

/-- `_as_float` (config.py 21–26): parse, clamping to `[minimum, maximum]`;
the default is returned unclamped when conversion fails. -/
def _as_float (value : PyVal) (default : ℚ) (minimum : ℚ) (maximum : ℚ) : ℚ :=
  match pyFloatOpt value with
  | none => default
  | some x => max minimum (min maximum x)

/-- `_as_tuple` (config.py 9–18).  `isinstance(value, int)` also matches
`bool` (a subclass); a string is iterable character by character; the
`try` catches only `TypeError` (non-iterable input), so a `ValueError`
from `int(...)` on an element propagates to the caller. -/
def _as_tuple (value : PyVal) (length : ℕ) (fallback : List ℤ) : Except PyErr (List ℤ) :=
  match value with
  | .vint n => .ok (List.replicate length n)
  | .vbool b => .ok (List.replicate length (if b then 1 else 0))
  | .vlist xs =>
    match xs.mapM pyIntE with
    | .ok items => if items.length ≠ length then .ok fallback else .ok items
    | .error .typeError => .ok fallback
    | .error .valueError => .error .valueError
  | .vstr s =>
    match (s.toList.map (fun c => String.singleton c)).mapM (fun t => pyIntE (.vstr t)) with
    | .ok items => if items.length ≠ length then .ok fallback else .ok items
    | .error .typeError => .ok fallback
    | .error .valueError => .error .valueError
  | .vnone => .ok fallback
  | .vnum _ => .ok fallback

/-- `self.font_size = max(24, int(self.font_size))` (config.py 113). -/
def font_size_load (v : PyVal) : Except PyErr ℤ :=
  (pyIntE v).map (fun n => max 24 n)

/-- `self.scale_multiplier = max(2, int(self.scale_multiplier))`
(config.py 117). -/
def scale_multiplier_load (v : PyVal) : Except PyErr ℤ :=
  (pyIntE v).map (fun n => max 2 n)

/-- `data["line_spacing"] = _as_float(..., 1.05, 0.1, 2.0)` (config.py 76). -/
def line_spacing_load (v : PyVal) : ℚ :=
  _as_float v (21/20) (1/10) 2

/-- `data["image_area_ratio"] = _as_float(..., 0.45, 0.0, 0.95)`
(config.py 77). -/
def image_area_ratio_load (v : PyVal) : ℚ :=
  _as_float v (9/20) 0 (19/20)

/-! ### Proofs -/

lemma ws_not_hex (c : Char) (h : isPyWs c = true) : isHexCh c = false := by
  unfold isPyWs at h
  simp only [Bool.or_eq_true, decide_eq_true_eq] at h
  rcases h with ((((h | h) | h) | h) | h) | h <;> subst h <;> decide

lemma hex_not_ws (c : Char) (h : isHexCh c = true) : isPyWs c = false := by
  cases hw : isPyWs c
  · rfl
  · rw [ws_not_hex c hw] at h; exact absurd h (by simp)

lemma okPair_self (c : Char) : okPair c c = isHexCh c := by
  cases h : isHexCh c <;> simp [okPair, h]

lemma isSome_pyIntHex2 (a b : Char) : (pyIntHex2 a b).isSome = okPair a b := by
  unfold pyIntHex2 okPair
  by_cases h1 : isHexCh a = true <;> by_cases h2 : isHexCh b = true <;>
    by_cases h3 : a = '+' <;> by_cases h4 : a = '-' <;>
    by_cases h5 : isPyWs a = true <;> by_cases h6 : isPyWs b = true <;>
    simp_all

lemma dropWhile_eq_self_of_all (p : Char → Bool) (cs : List Char)
    (h : ∀ c ∈ cs, p c = false) : cs.dropWhile p = cs := by
  cases cs with
  | nil => rfl
  | cons c rest => simp [List.dropWhile, h c (List.mem_cons_self c rest)]

lemma pyStrip_eq_self (cs : List Char) (h : ∀ c ∈ cs, isPyWs c = false) :
    pyStrip cs = cs := by
  unfold pyStrip
  rw [dropWhile_eq_self_of_all _ _ h,
      dropWhile_eq_self_of_all _ _ (fun c hc => h c (List.mem_reverse.mp hc)),
      List.reverse_reverse]

lemma isOk_quadToColor (o1 o2 o3 o4 : Option ℤ) :
    (quadToColor o1 o2 o3 o4).isOk = (o1.isSome && o2.isSome && o3.isSome && o4.isSome) := by
  rcases o1 <;> rcases o2 <;> rcases o3 <;> rcases o4 <;> rfl

lemma parseColorChars_isOk (cs : List Char) :
    (parseColorChars cs).isOk = validColorChars (pyStrip cs) := by
  unfold parseColorChars
  generalize pyStrip cs = ds
  have hF : isHexCh 'F' = true := by decide
  match ds with
  | [] => rfl
  | c :: body =>
    by_cases hc : c = '#'
    · subst hc
      simp only [if_pos rfl, validColorChars, Bool.true_and,
        show (('#' : Char) = '#' : Bool) = true from by decide]
      match body with
      | [] => rfl
      | [a] => rfl
      | [a, b] => rfl
      | [a, b, c] =>
        simp [validColorBody, isOk_quadToColor, isSome_pyIntHex2, okPair_self, hF]
      | [a, b, c, d] => rfl
      | [a, b, c, d, e] => rfl
      | [a, b, c, d, e, f] =>
        simp [validColorBody, isOk_quadToColor, isSome_pyIntHex2, okPair_self, hF]
      | [a, b, c, d, e, f, g] => rfl
      | [a, b, c, d, e, f, g, h] =>
        simp [validColorBody, isOk_quadToColor, isSome_pyIntHex2]
      | a :: b :: c :: d :: e :: f :: g :: h :: i :: rest =>
        simp [validColorBody, Except.isOk, Except.toBool]
    · simp [validColorChars, hc, Except.isOk, Except.toBool]

/-- C6 counterexample: contrary to the claim, `_parse_color` does not raise
for every input lacking a `#` prefix or containing a non-hex character.
`" #+1+2+3+4"` starts with a space, and its channel slices `"+1"` … `"+4"`
contain the non-hex character `+`, yet parsing succeeds because the code
first applies `str.strip()` and then feeds each slice to Python's lenient
`int(·, 16)`.  `"#-1-2-3-4"` even yields negative (non-8-bit) channels. -/
theorem parse_color_accepts_nonhex_cex :
    _parse_color " #+1+2+3+4" = .ok (1, 2, 3, 4) ∧
      _parse_color "#-1-2-3-4" = .ok (-1, -2, -3, -4) :=
  ⟨rfl, rfl⟩

/-- C6 (amended): after stripping surrounding whitespace, `_parse_color`
succeeds exactly on strings starting with `#` followed by 3 hex digits, or
by 6 or 8 characters whose consecutive 2-character slices are each accepted
by Python `int(·, 16)` (two hex digits, or a single hex digit with a sign
or whitespace padding); every other input raises a `ValueError`. -/
theorem parse_color_success_iff (value : String) :
    (_parse_color value).isOk = validColorChars (pyStrip value.toList) :=
  parseColorChars_isOk value.toList

lemma pyInt_of_nonneg (q : ℚ) (h : 0 ≤ q) : pyInt q = ⌊q⌋ := by
  unfold pyInt
  rw [if_neg (not_lt.mpr h)]

lemma floor_le_pyInt (q : ℚ) : ⌊q⌋ ≤ pyInt q := by
  unfold pyInt
  split
  · exact Int.floor_le_ceil q
  · exact le_refl _

/-- C3 counterexample: with canvas height 20 and padding 15 (available
height −10) and ratio 0.45, Python `int()` truncation gives text box −3
while the claim's floor formula gives −4, so the claimed equality fails
when the available height is negative. -/
theorem text_box_height_truncation_cex :
    text_box_height 20 15 (9/20) true = -3 ∧
      text_box_height_floor 20 15 (9/20) = -4 := by
  have c1 : pyInt (((20 - 15 * 2 : ℤ) : ℚ) * (9/20)) = -4 := by
    unfold pyInt
    rw [if_pos (by norm_num)]
    rw [show (((20 - 15 * 2 : ℤ) : ℚ) * (9/20)) = -(9/2) by norm_num]
    rw [Int.ceil_eq_iff]
    norm_num
  have c2 : pyInt (((20 - 15 * 2 : ℤ) : ℚ) * (35/100)) = -3 := by
    unfold pyInt
    rw [if_pos (by norm_num)]
    rw [show (((20 - 15 * 2 : ℤ) : ℚ) * (35/100)) = -(7/2) by norm_num]
    rw [Int.ceil_eq_iff]
    norm_num
  have c3 : ⌊((20 - 15 * 2 : ℤ) : ℚ) * (9/20)⌋ = -5 := by norm_num
  have c4 : ⌊((20 - 15 * 2 : ℤ) : ℚ) * (35/100)⌋ = -4 := by norm_num
  constructor
  · simp only [text_box_height, if_pos, c1, c2]
    norm_num
  · simp only [text_box_height_floor, c3, c4]
    norm_num

/-- C3 (amended): for a sticker with art, whenever the available height
(height − 2·padding) is non-negative — which includes every sane canvas —
the text box height equals the claimed
`max(available − ⌊available·ratio⌋, ⌊available·0.35⌋)`; moreover for every
ratio in `[0, 0.95]` the text box height never drops below
`⌊available·0.35⌋` (this part holds even for negative available heights,
where Python `int()` truncation makes the code sit above the floor
formula). -/
theorem text_box_height_min_35 (height padding : ℤ) (r : ℚ)
    (h0 : 0 ≤ r) (h1 : r ≤ 19/20) (hah : 0 ≤ height - padding * 2) :
    text_box_height height padding r true = text_box_height_floor height padding r ∧
      ⌊((height - padding * 2 : ℤ) : ℚ) * (35/100)⌋ ≤ text_box_height height padding r true := by
  have hq : (0 : ℚ) ≤ ((height - padding * 2 : ℤ) : ℚ) := by exact_mod_cast hah
  constructor
  · simp only [text_box_height, text_box_height_floor, if_pos]
    rw [pyInt_of_nonneg _ (mul_nonneg hq h0), pyInt_of_nonneg _ (mul_nonneg hq (by norm_num))]
  · simp only [text_box_height, if_pos]
    exact le_trans (floor_le_pyInt _) (le_max_right _ _)

/-- C3 witness: the amended theorem at height 1000, padding 90, ratio 0.45. -/
theorem text_box_height_min_35_witness :
    (0 : ℚ) ≤ 9/20 ∧ (9/20 : ℚ) ≤ 19/20 ∧ (0 : ℤ) ≤ 1000 - 90 * 2 ∧
      (text_box_height 1000 90 (9/20) true = text_box_height_floor 1000 90 (9/20) ∧
        ⌊((1000 - 90 * 2 : ℤ) : ℚ) * (35/100)⌋ ≤ text_box_height 1000 90 (9/20) true) :=
  ⟨by norm_num, by norm_num, by norm_num,
    text_box_height_min_35 1000 90 (9/20) (by norm_num) (by norm_num) (by norm_num)⟩

/-- C4: the export resize step always returns exactly the requested target
dimensions, and the plain-resize branch is taken if and only if the source
and target aspect ratios differ by at most `0.01`; otherwise the image is
center-cropped to the target ratio and resized (`ImageOps.fit`). -/
theorem resize_for_target_exact (image size : ℕ × ℕ)
    (hw : 0 < image.1) (hh : 0 < image.2) (tw : 0 < size.1) (th : 0 < size.2) :
    (_resize_for_target image size).2 = size ∧
      ((_resize_for_target image size).1 = ResizeMode.plainResize ↔
        |(image.1 : ℚ) / (image.2 : ℚ) - (size.1 : ℚ) / (size.2 : ℚ)| ≤ 1 / 100) := by
  by_cases hc : |(image.1 : ℚ) / (image.2 : ℚ) - (size.1 : ℚ) / (size.2 : ℚ)| ≤ 1 / 100
  · constructor
    · simp only [_resize_for_target]
      rw [if_pos hc]
      rfl
    · simp only [_resize_for_target]
      rw [if_pos hc]
      simpa using hc
  · constructor
    · simp only [_resize_for_target]
      rw [if_neg hc]
      rfl
    · simp only [_resize_for_target]
      rw [if_neg hc]
      simpa using hc

/-- C4 witness: a 400×200 source exported to 200×100 (matching ratios). -/
theorem resize_for_target_exact_witness :
    ((0 : ℕ) < 400 ∧ (0 : ℕ) < 200 ∧ (0 : ℕ) < 200 ∧ (0 : ℕ) < 100) ∧
      ((_resize_for_target (400, 200) (200, 100)).2 = (200, 100) ∧
        ((_resize_for_target (400, 200) (200, 100)).1 = ResizeMode.plainResize ↔
          |(400 : ℚ) / (200 : ℚ) - (200 : ℚ) / (100 : ℚ)| ≤ 1 / 100)) :=
  ⟨by norm_num,
    resize_for_target_exact (400, 200) (200, 100)
      (by norm_num) (by norm_num) (by norm_num) (by norm_num)⟩

lemma wrapGo_lines_ok (m : List Char → ℕ) (maxW : ℤ) :
    ∀ (rest : List Char) (lines : List (List Char)) (current : List Char),
      (∀ l ∈ lines, (m l : ℤ) ≤ maxW ∨ l.length = 1 ∨ l = []) →
      ((m current : ℤ) ≤ maxW ∨ current.length = 1 ∨ current = []) →
      ∀ l ∈ wrapGo m maxW lines current rest, (m l : ℤ) ≤ maxW ∨ l.length = 1 ∨ l = [] := by
  intro rest
  induction rest with
  | nil =>
    intro lines current hl hc l hmem
    unfold wrapGo at hmem
    split at hmem
    · rcases List.mem_append.mp hmem with h | h
      · exact hl l h
      · rw [List.mem_singleton.mp h]; exact hc
    · exact hl l hmem
  | cons c rest ih =>
    intro lines current hl hc l hmem
    unfold wrapGo at hmem
    split at hmem
    · exact ih _ _ (by
        intro l' hl'
        rcases List.mem_append.mp hl' with h | h
        · exact hl l' h
        · rw [List.mem_singleton.mp h]; exact hc) (Or.inr (Or.inr rfl)) l hmem
    · split at hmem
      · rename_i hacc
        refine ih _ _ hl ?_ l hmem
        rcases hacc with h | h
        · exact Or.inl h
        · subst h; exact Or.inr (Or.inl (by simp))
      · exact ih _ _ (by
          intro l' hl'
          rcases List.mem_append.mp hl' with h | h
          · exact hl l' h
          · rw [List.mem_singleton.mp h]; exact hc) (Or.inr (Or.inl (by simp))) l hmem


lemma wrapGo_length_ge (m : List Char → ℕ) (maxW : ℤ) :
    ∀ (rest : List Char) (lines : List (List Char)) (current : List Char),
      lines.length + rest.count '\n' ≤ (wrapGo m maxW lines current rest).length := by
  intro rest
  induction rest with
  | nil =>
    intro lines current
    unfold wrapGo
    split <;> simp
  | cons c rest ih =>
    intro lines current
    unfold wrapGo
    by_cases hc : c = '\n'
    · subst hc
      rw [if_pos rfl]
      have := ih (lines ++ [current]) []
      simp only [List.length_append, List.length_singleton] at this
      simp [List.count_cons]
      omega
    · rw [if_neg hc]
      have hcnt : (c :: rest).count '\n' = rest.count '\n' := by
        simp [List.count_cons, hc]
      split
      · have := ih lines (current ++ [c])
        omega
      · have := ih (lines ++ [current]) [c]
        simp only [List.length_append, List.length_singleton] at this
        omega

lemma wrapGo_length_pos (m : List Char → ℕ) (maxW : ℤ) :
    ∀ (rest : List Char) (lines : List (List Char)) (current : List Char),
      1 ≤ (wrapGo m maxW lines current rest).length := by
  intro rest
  induction rest with
  | nil =>
    intro lines current
    unfold wrapGo
    split
    · simp
    · rename_i h
      push_neg at h
      rcases h with ⟨-, h2⟩
      cases hl : lines with
      | nil => exact absurd hl h2
      | cons a as => simp
  | cons c rest ih =>
    intro lines current
    unfold wrapGo
    split
    · exact ih _ _
    · split
      · exact ih _ _
      · exact ih _ _

lemma wrapGo_no_newline (m : List Char → ℕ) (maxW : ℤ) :
    ∀ (rest : List Char) (lines : List (List Char)) (current : List Char),
      (∀ l ∈ lines, '\n' ∉ l) → '\n' ∉ current →
      ∀ l ∈ wrapGo m maxW lines current rest, '\n' ∉ l := by
  intro rest
  induction rest with
  | nil =>
    intro lines current hl hc l hmem
    unfold wrapGo at hmem
    split at hmem
    · rcases List.mem_append.mp hmem with h | h
      · exact hl l h
      · rw [List.mem_singleton.mp h]; exact hc
    · exact hl l hmem
  | cons c rest ih =>
    intro lines current hl hc l hmem
    unfold wrapGo at hmem
    split at hmem
    · refine ih _ _ ?_ (by simp) l hmem
      intro l' hl'
      rcases List.mem_append.mp hl' with h | h
      · exact hl l' h
      · rw [List.mem_singleton.mp h]; exact hc
    · rename_i hne
      split at hmem
      · refine ih _ _ hl ?_ l hmem
        intro hbad
        rcases List.mem_append.mp hbad with h | h
        · exact hc h
        · exact hne (List.mem_singleton.mp h).symm
      · refine ih _ _ ?_ ?_ l hmem
        · intro l' hl'
          rcases List.mem_append.mp hl' with h | h
          · exact hl l' h
          · rw [List.mem_singleton.mp h]; exact hc
        · intro hbad
          exact hne (List.mem_singleton.mp hbad).symm

/-- C2: `_wrap_text` always returns at least one line; empty text wraps to
a single empty line; no returned line contains a newline character and each
newline in the input forces a break (the line count is at least the newline
count); and every returned line fits the width budget except possibly a
single-character line that by itself exceeds it.  `m` is any text measure
with `m "" = 0` (true of the ceiling of PIL `textlength`), `maxW` any
non-negative width budget. -/
theorem wrap_text_properties (m : List Char → ℕ) (maxW : ℤ) (text : List Char)
    (hm : m [] = 0) (hW : 0 ≤ maxW) :
    1 ≤ (_wrap_text m maxW text).length ∧
      _wrap_text m maxW [] = [[]] ∧
      text.count '\n' ≤ (_wrap_text m maxW text).length ∧
      ∀ l ∈ _wrap_text m maxW text, '\n' ∉ l ∧ ((m l : ℤ) ≤ maxW ∨ l.length = 1) := by
  refine ⟨?_, rfl, ?_, ?_⟩
  · unfold _wrap_text
    split
    · simp
    · exact wrapGo_length_pos m maxW text [] []
  · unfold _wrap_text
    split
    · rename_i h
      subst h
      simp
    · simpa using wrapGo_length_ge m maxW text [] []
  · intro l hmem
    constructor
    · unfold _wrap_text at hmem
      split at hmem
      · simp at hmem
        subst hmem
        simp
      · exact wrapGo_no_newline m maxW text [] [] (by simp) (by simp) l hmem
    · unfold _wrap_text at hmem
      split at hmem
      · simp at hmem
        subst hmem
        left
        rw [hm]
        exact_mod_cast hW
      · rcases wrapGo_lines_ok m maxW text [] [] (by simp) (Or.inr (Or.inr rfl)) l hmem with
          h | h | h
        · exact Or.inl h
        · exact Or.inr h
        · subst h
          left
          rw [hm]
          exact_mod_cast hW

/-- C2 witness: the concrete measure `10·length` with width budget 25 on
the text `"ab cd"`. -/
theorem wrap_text_properties_witness :
    (fun l : List Char => 10 * l.length) [] = 0 ∧ ((0 : ℤ) ≤ 25) ∧
      (1 ≤ (_wrap_text (fun l => 10 * l.length) 25 "ab cd".toList).length ∧
        _wrap_text (fun l => 10 * l.length) 25 [] = [[]] ∧
        "ab cd".toList.count '\n' ≤ (_wrap_text (fun l => 10 * l.length) 25 "ab cd".toList).length ∧
        ∀ l ∈ _wrap_text (fun l => 10 * l.length) 25 "ab cd".toList,
          '\n' ∉ l ∧ (((fun l : List Char => 10 * l.length) l : ℤ) ≤ 25 ∨ l.length = 1)) :=
  ⟨rfl, by norm_num, wrap_text_properties (fun l => 10 * l.length) 25 "ab cd".toList rfl (by norm_num)⟩

/-- C7: the 3-digit form (each digit duplicated), the 6-digit form, and the
8-digit form with alpha `FF` of an equivalent color all parse to equal RGBA
tuples; in particular `#F0A` parses to `(255, 0, 170, 255)`. -/
theorem color_three_six_eight_agree
    (r g b x1 x2 y1 y2 z1 z2 : Char)
    (hr : isHexCh r = true) (hg : isHexCh g = true) (hb : isHexCh b = true)
    (h1 : isHexCh x1 = true) (h2 : isHexCh x2 = true) (h3 : isHexCh y1 = true)
    (h4 : isHexCh y2 = true) (h5 : isHexCh z1 = true) (h6 : isHexCh z2 = true) :
    parseColorChars ['#', r, g, b] = parseColorChars ['#', r, r, g, g, b, b] ∧
      parseColorChars ['#', x1, x2, y1, y2, z1, z2]
        = parseColorChars ['#', x1, x2, y1, y2, z1, z2, 'F', 'F'] ∧
      _parse_color "#F0A" = .ok (255, 0, 170, 255) := by
  have mem3 : ∀ c ∈ ['#', r, g, b], isPyWs c = false := by
    intro c hc
    fin_cases hc
    · decide
    · exact hex_not_ws _ hr
    · exact hex_not_ws _ hg
    · exact hex_not_ws _ hb
  have mem6 : ∀ c ∈ ['#', r, r, g, g, b, b], isPyWs c = false := by
    intro c hc
    fin_cases hc
    · decide
    all_goals first
      | exact hex_not_ws _ hr
      | exact hex_not_ws _ hg
      | exact hex_not_ws _ hb
  have mem6' : ∀ c ∈ ['#', x1, x2, y1, y2, z1, z2], isPyWs c = false := by
    intro c hc
    fin_cases hc
    · decide
    all_goals first
      | exact hex_not_ws _ h1
      | exact hex_not_ws _ h2
      | exact hex_not_ws _ h3
      | exact hex_not_ws _ h4
      | exact hex_not_ws _ h5
      | exact hex_not_ws _ h6
  have mem8 : ∀ c ∈ ['#', x1, x2, y1, y2, z1, z2, 'F', 'F'], isPyWs c = false := by
    intro c hc
    fin_cases hc
    all_goals first
      | decide
      | exact hex_not_ws _ h1
      | exact hex_not_ws _ h2
      | exact hex_not_ws _ h3
      | exact hex_not_ws _ h4
      | exact hex_not_ws _ h5
      | exact hex_not_ws _ h6
  refine ⟨?_, ?_, rfl⟩
  · unfold parseColorChars
    rw [pyStrip_eq_self _ mem3, pyStrip_eq_self _ mem6]
    rfl
  · unfold parseColorChars
    rw [pyStrip_eq_self _ mem6', pyStrip_eq_self _ mem8]
    rfl

/-- C7 witness: the general theorem instantiated at `#F0A` / `#FF00AA` /
`#FF00AAFF`. -/
theorem color_three_six_eight_agree_witness :
    parseColorChars ['#', 'F', '0', 'A'] = parseColorChars ['#', 'F', 'F', '0', '0', 'A', 'A'] ∧
      parseColorChars ['#', 'F', 'F', '0', '0', 'A', 'A']
        = parseColorChars ['#', 'F', 'F', '0', '0', 'A', 'A', 'F', 'F'] ∧
      _parse_color "#F0A" = .ok (255, 0, 170, 255) :=
  color_three_six_eight_agree 'F' '0' 'A' 'F' 'F' '0' '0' 'A' 'A'
    (by decide) (by decide) (by decide) (by decide) (by decide) (by decide)
    (by decide) (by decide) (by decide)

lemma _wrap_text_length_pos (m : List Char → ℕ) (maxW : ℤ) (text : List Char) :
    1 ≤ (_wrap_text m maxW text).length := by
  unfold _wrap_text
  split
  · simp
  · exact wrapGo_length_pos m maxW text [] []

lemma line_gap_eq_floor (lhv : ℕ) (sp : ℚ) :
    line_gap lhv sp = (⌊(lhv : ℚ) * max 0 (sp - 1)⌋).toNat := by
  unfold line_gap
  omega

lemma specFits_iff (m : ℕ → List Char → ℕ) (lh : ℕ → ℕ) (spacing : ℚ)
    (text : List Char) (maxW maxH : ℤ) (size : ℕ) :
    specFits m lh spacing text maxW maxH size = true ↔
      (((_measure_block (m size) (lh size) (_wrap_text (m size) maxW text) spacing).2.2.1 : ℤ) ≤ maxH ∧
        (((_measure_block (m size) (lh size) (_wrap_text (m size) maxW text) spacing).2.2.2 : ℤ) ≤ maxW)) := by
  have hp := _wrap_text_length_pos (m size) maxW text
  simp only [specFits, _measure_block, _block_height]
  rw [if_neg (show ¬ (_wrap_text (m size) maxW text).length = 0 by omega)]
  rw [← line_gap_eq_floor (lh size) spacing]
  simp [Bool.and_eq_true, decide_eq_true_eq]


lemma layoutLoop_eq_find (m : ℕ → List Char → ℕ) (lh : ℕ → ℕ) (spacing : ℚ)
    (text : List Char) (maxW maxH : ℤ) (base : ℕ) (size : ℕ) :
    layoutLoop m lh spacing text maxW maxH base size =
      (match (sizesFrom base size).find? (fun s => specFits m lh spacing text maxW maxH s) with
       | some s => layoutAt m lh spacing text maxW s
       | none => layoutAt m lh spacing text maxW (max 20 (base / 4))) := by
  induction size using Nat.strong_induction_on with
  | _ size ih =>
    rw [layoutLoop.eq_def, sizesFrom.eq_def]
    by_cases h : max 20 (base / 4) ≤ size
    · rw [dif_pos h, dif_pos h]
      by_cases hfit : specFits m lh spacing text maxW maxH size = true
      · rw [List.find?_cons_of_pos _ hfit]
        rw [if_pos ((specFits_iff m lh spacing text maxW maxH size).mp hfit)]
        simp [_measure_block, layoutAt]
      · rw [List.find?_cons_of_neg _ (by simpa using hfit)]
        rw [if_neg (fun hc => hfit ((specFits_iff m lh spacing text maxW maxH size).mpr hc))]
        exact ih (size - 4) (by omega)
    · rw [dif_neg h, dif_neg h]
      simp [layoutAt]


lemma layoutSteps_zero (m : ℕ → List Char → ℕ) (lh : ℕ → ℕ) (spacing : ℚ)
    (text : List Char) (maxW maxH : ℤ) (base : ℕ) (size : ℕ)
    (h : ¬ max 20 (base / 4) ≤ size) :
    layoutSteps m lh spacing text maxW maxH base size = 0 := by
  rw [layoutSteps.eq_def, dif_neg h]

lemma layoutSteps_le (m : ℕ → List Char → ℕ) (lh : ℕ → ℕ) (spacing : ℚ)
    (text : List Char) (maxW maxH : ℤ) (base : ℕ) (size : ℕ) :
    layoutSteps m lh spacing text maxW maxH base size ≤ (size - max 20 (base / 4)) / 4 + 1 := by
  induction size using Nat.strong_induction_on with
  | _ size ih =>
    rw [layoutSteps.eq_def]
    by_cases h : max 20 (base / 4) ≤ size
    · rw [dif_pos h]
      by_cases hfit :
          ((_measure_block (m size) (lh size) (_wrap_text (m size) maxW text) spacing).2.2.1 : ℤ) ≤ maxH ∧
            ((_measure_block (m size) (lh size) (_wrap_text (m size) maxW text) spacing).2.2.2 : ℤ) ≤ maxW
      · rw [if_pos hfit]
        omega
      · rw [if_neg hfit]
        by_cases h4 : max 20 (base / 4) ≤ size - 4
        · have := ih (size - 4) (by omega)
          omega
        · rw [layoutSteps_zero m lh spacing text maxW maxH base (size - 4) h4]
          omega
    · rw [dif_neg h]
      omega

lemma layoutLoop_fontSize_ge (m : ℕ → List Char → ℕ) (lh : ℕ → ℕ) (spacing : ℚ)
    (text : List Char) (maxW maxH : ℤ) (base : ℕ) (size : ℕ) :
    max 20 (base / 4) ≤ (layoutLoop m lh spacing text maxW maxH base size).fontSize := by
  induction size using Nat.strong_induction_on with
  | _ size ih =>
    rw [layoutLoop.eq_def]
    by_cases h : max 20 (base / 4) ≤ size
    · rw [dif_pos h]
      by_cases hfit :
          ((_measure_block (m size) (lh size) (_wrap_text (m size) maxW text) spacing).2.2.1 : ℤ) ≤ maxH ∧
            ((_measure_block (m size) (lh size) (_wrap_text (m size) maxW text) spacing).2.2.2 : ℤ) ≤ maxW
      · rw [if_pos hfit]
        exact h
      · rw [if_neg hfit]
        exact ih (size - 4) (by omega)
    · rw [dif_neg h]

/-- C5 counterexample: at base font size 10 the loop runs 0 iterations,
but the claim's signed bound `(b - max(20, b//4))//4 + 1` (Python floor
division, `Int.fdiv`) evaluates to `-2 < 0`, so "terminates in at most
that many iterations" is false as stated. -/
theorem layout_steps_signed_bound_cex :
    layoutSteps (fun _ _ => 0) (fun _ => 0) 1 [] 100 100 10 10 = 0 ∧
      Int.fdiv (10 - max 20 (Int.fdiv 10 4)) 4 + 1 < 0 ∧
      ¬ ((layoutSteps (fun _ _ => 0) (fun _ => 0) 1 [] 100 100 10 10 : ℤ) ≤
          Int.fdiv (10 - max 20 (Int.fdiv 10 4)) 4 + 1) := by
  have h0 : layoutSteps (fun _ _ => 0) (fun _ => 0) 1 [] 100 100 10 10 = 0 :=
    layoutSteps_zero _ _ _ _ _ _ _ _ (by norm_num)
  refine ⟨h0, by decide, ?_⟩
  rw [h0]
  decide

/-- C1: the shrink-to-fit search of `_layout_text` tries the sizes
`base, base−4, …` while at least `max(20, base//4)` and returns the layout
of the first size whose block height fits the available height and whose
widest line fits the available width (the spec's acceptance test
`specFits`); if no size in the sequence satisfies both — including when
the sequence is empty — it returns the floor size's wrapped layout.  The
function is total: no error is raised in the fallback case. -/
theorem layout_text_first_fit (m : ℕ → List Char → ℕ) (lh : ℕ → ℕ) (spacing : ℚ)
    (text : List Char) (maxW maxH : ℤ) (base : ℕ) :
    _layout_text m lh spacing text maxW maxH base =
      (match (sizesFrom base base).find? (fun s => specFits m lh spacing text maxW maxH s) with
       | some s => layoutAt m lh spacing text maxW s
       | none => layoutAt m lh spacing text maxW (max 20 (base / 4))) :=
  layoutLoop_eq_find m lh spacing text maxW maxH base base

/-- C5 (amended): the shrink-to-fit loop runs at most
`(b ∸ max(20, b//4))/4 + 1` iterations, where `∸` is truncated (natural)
subtraction — the claim's signed bound is negative for `b < 16`, see the
counterexample — and the returned layout's font size is always at least
`max(20, b//4)`, including the fallback case. -/
theorem layout_shrink_termination (m : ℕ → List Char → ℕ) (lh : ℕ → ℕ) (spacing : ℚ)
    (text : List Char) (maxW maxH : ℤ) (base : ℕ) :
    layoutSteps m lh spacing text maxW maxH base base ≤ (base - max 20 (base / 4)) / 4 + 1 ∧
      max 20 (base / 4) ≤ (_layout_text m lh spacing text maxW maxH base).fontSize :=
  ⟨layoutSteps_le m lh spacing text maxW maxH base base,
    layoutLoop_fontSize_ge m lh spacing text maxW maxH base base⟩

/-- C8: at most one art source is resolved per sticker.  A truthy
(non-empty) explicit image path always yields that image when anything is
returned at all — the illustration is ignored even when enabled; with no
truthy path, an enabled illustration is synthesized; otherwise no art is
resolved. -/
theorem obtain_art_precedence (fileExists : String → Bool) (spec : StickerSpec) :
    (∀ p, spec.image_path = some p → ¬ p.isEmpty →
      ∀ a, _obtain_art_image fileExists spec = .ok a → a = some (.image p)) ∧
      ((spec.image_path = none ∨ spec.image_path = some "") →
        ∀ il, spec.illustration = some il → il.enabled = true →
          _obtain_art_image fileExists spec = .ok (some (.illustration il))) ∧
      ((spec.image_path = none ∨ spec.image_path = some "") →
        (∀ il, spec.illustration = some il → il.enabled = false) →
          _obtain_art_image fileExists spec = .ok none) := by
  have hfall : (spec.image_path = none ∨ spec.image_path = some "") →
      _obtain_art_image fileExists spec = .ok (artFromIllustration spec) := by
    intro hpath
    unfold _obtain_art_image
    rcases hpath with h | h
    · rw [h]
    · rw [h]
      simp
      intro hemp
      exact absurd hemp (by decide)
  refine ⟨?_, ?_, ?_⟩
  · intro p hp hne a ha
    simp only [_obtain_art_image, hp] at ha
    rw [if_pos hne] at ha
    by_cases hfe : fileExists p = true
    · rw [if_pos hfe] at ha
      cases ha
      rfl
    · rw [if_neg hfe] at ha
      cases ha
  · intro hpath il hil hen
    rw [hfall hpath]
    simp [artFromIllustration, hil, hen]
  · intro hpath hdis
    rw [hfall hpath]
    cases hil : spec.illustration with
    | none => simp [artFromIllustration, hil]
    | some il => simp [artFromIllustration, hil, hdis il hil]

/-- C8 witness: the three branches at concrete stickers (image wins over an
enabled illustration; illustration alone; no art at all). -/
theorem obtain_art_precedence_witness :
    (some (ArtSource.image "cat.png") = some (ArtSource.image "cat.png")) ∧
      _obtain_art_image (fun _ => true)
          { text := "a".toList, image_path := none,
            illustration := some { enabled := true } } =
        .ok (some (.illustration { enabled := true })) ∧
      _obtain_art_image (fun _ => true) { text := "a".toList } = .ok none := by
  refine ⟨?_, ?_, ?_⟩
  · exact (obtain_art_precedence (fun _ => true)
      { text := "a".toList, image_path := some "cat.png",
        illustration := some { enabled := true } }).1
      "cat.png" rfl (by decide) _ rfl
  · exact (obtain_art_precedence (fun _ => true)
      { text := "a".toList, image_path := none,
        illustration := some { enabled := true } }).2.1 (Or.inl rfl) _ rfl rfl
  · exact (obtain_art_precedence (fun _ => true)
      { text := "a".toList }).2.2 (Or.inl rfl) (fun il h => by cases h)

lemma replaceDD_length_le (cs : List Char) : (replaceDD cs).length ≤ cs.length := by
  induction cs using replaceDD.induct with
  | case1 => simp [replaceDD]
  | case2 c => simp [replaceDD]
  | case3 c1 c2 rest hdd ih =>
    rw [replaceDD, if_pos hdd]
    simp only [List.length_cons]
    omega
  | case4 c1 c2 rest hdd ih =>
    rw [replaceDD, if_neg hdd]
    simp only [List.length_cons] at ih ⊢
    omega

lemma hasDD_cons_cons (a b : Char) (l : List Char) :
    hasDD (a :: b :: l) = ((a = '-' && b = '-') || hasDD (b :: l)) := rfl

lemma replaceDD_length_lt (cs : List Char) (h : hasDD cs = true) :
    (replaceDD cs).length < cs.length := by
  induction cs using replaceDD.induct with
  | case1 => simp [hasDD] at h
  | case2 c => simp [hasDD] at h
  | case3 c1 c2 rest hdd ih =>
    rw [replaceDD, if_pos hdd]
    have := replaceDD_length_le rest
    simp only [List.length_cons]
    omega
  | case4 c1 c2 rest hdd ih =>
    rw [replaceDD, if_neg hdd]
    rw [hasDD_cons_cons] at h
    have h2 : hasDD (c2 :: rest) = true := by
      rcases Bool.or_eq_true _ _ |>.mp h with h1 | h1
      · exact absurd (by
          rcases Bool.and_eq_true _ _ |>.mp h1 with ⟨ha, hb⟩
          exact ⟨of_decide_eq_true ha, of_decide_eq_true hb⟩) hdd
      · exact h1
    have := ih h2
    simp only [List.length_cons] at this ⊢
    omega

lemma collapseFuel_no_dd (fuel : ℕ) : ∀ cs : List Char, cs.length ≤ fuel →
    hasDD (collapseDashesFuel fuel cs) = false := by
  induction fuel with
  | zero =>
    intro cs hcs
    have : cs = [] := List.length_eq_zero.mp (Nat.le_zero.mp hcs)
    subst this
    rfl
  | succ fuel ih =>
    intro cs hcs
    rw [collapseDashesFuel]
    by_cases h : hasDD cs = true
    · rw [if_pos h]
      exact ih _ (by have := replaceDD_length_lt cs h; omega)
    · rw [if_neg h]
      exact Bool.not_eq_true _ |>.mp h

lemma collapseDashes_no_hasDD (cs : List Char) : hasDD (collapseDashes cs) = false :=
  collapseFuel_no_dd cs.length cs le_rfl


lemma hasDD_append_right (l1 l2 : List Char) (h : hasDD l2 = true) :
    hasDD (l1 ++ l2) = true := by
  induction l1 with
  | nil => simpa
  | cons a l1 ih =>
    simp only [List.cons_append]
    cases hl : l1 ++ l2 with
    | nil =>
      rcases List.append_eq_nil.mp hl with ⟨-, h2⟩
      subst h2
      simp [hasDD] at h
    | cons x xs =>
      rw [hasDD_cons_cons]
      have hx : hasDD (x :: xs) = true := hl ▸ ih
      rw [hx]
      simp

lemma hasDD_append_left (l1 l2 : List Char) (h : hasDD l1 = true) :
    hasDD (l1 ++ l2) = true := by
  induction l1 with
  | nil => simp [hasDD] at h
  | cons a l1 ih =>
    cases hl1 : l1 with
    | nil =>
      subst hl1
      simp [hasDD] at h
    | cons b rest =>
      subst hl1
      rw [hasDD_cons_cons] at h
      simp only [List.cons_append]
      rw [hasDD_cons_cons]
      rcases Bool.or_eq_true _ _ |>.mp h with h1 | h1
      · simp [h1]
      · have := ih h1
        simp only [List.cons_append] at this
        rw [this]
        simp

lemma stripChars_no_dd (cs : List Char) (h : hasDD cs = false) :
    hasDD (stripChars cs) = false := by
  by_contra hc
  have hc' : hasDD (stripChars cs) = true := by
    cases hs : hasDD (stripChars cs)
    · exact absurd hs hc
    · rfl
  have hAsuf : (cs.dropWhile stripSet) <:+ cs := List.dropWhile_suffix _
  have hBsuf : ((cs.dropWhile stripSet).reverse.dropWhile stripSet) <:+
      (cs.dropWhile stripSet).reverse := List.dropWhile_suffix _
  obtain ⟨t, ht⟩ := hBsuf
  have hApre : stripChars cs ++ t.reverse = cs.dropWhile stripSet := by
    calc stripChars cs ++ t.reverse
        = ((cs.dropWhile stripSet).reverse.dropWhile stripSet).reverse ++ t.reverse := rfl
      _ = (t ++ ((cs.dropWhile stripSet).reverse.dropWhile stripSet)).reverse := by
            rw [List.reverse_append]
      _ = ((cs.dropWhile stripSet).reverse).reverse := by rw [ht]
      _ = cs.dropWhile stripSet := List.reverse_reverse _
  have h1 : hasDD (cs.dropWhile stripSet) = true := by
    rw [← hApre]
    exact hasDD_append_left _ _ hc'
  obtain ⟨t2, ht2⟩ := hAsuf
  have h2 : hasDD cs = true := by
    rw [← ht2]
    exact hasDD_append_right _ _ h1
  rw [h2] at h
  exact absurd h (by simp)


lemma head_dropWhile (p : Char → Bool) (cs : List Char) :
    ∀ c, ((cs.dropWhile p).head? = some c) → p c = false := by
  induction cs with
  | nil => intro c h; simp [List.dropWhile] at h
  | cons a rest ih =>
    intro c h
    rw [List.dropWhile] at h
    by_cases hp : p a = true
    · rw [hp] at h
      exact ih c h
    · rw [Bool.not_eq_true _ |>.mp hp] at h
      simp at h
      rw [← h]
      exact Bool.not_eq_true _ |>.mp hp

lemma getLast_dropWhile (p : Char → Bool) (cs : List Char)
    (hne : cs.dropWhile p ≠ []) : (cs.dropWhile p).getLast? = cs.getLast? := by
  obtain ⟨t, ht⟩ := List.dropWhile_suffix (l := cs) (p := p)
  conv_rhs => rw [← ht]
  exact (List.getLast?_append_of_ne_nil t hne).symm

lemma stripChars_head (cs : List Char) :
    ∀ c, ((stripChars cs).head? = some c) → stripSet c = false := by
  intro c h
  unfold stripChars at h
  rw [List.head?_reverse] at h
  have hne : (cs.dropWhile stripSet).reverse.dropWhile stripSet ≠ [] := by
    intro hnil
    rw [hnil] at h
    simp at h
  rw [getLast_dropWhile _ _ hne] at h
  rw [List.getLast?_reverse] at h
  exact head_dropWhile _ _ c h

lemma stripChars_last (cs : List Char) :
    ∀ c, ((stripChars cs).getLast? = some c) → stripSet c = false := by
  intro c h
  unfold stripChars at h
  rw [List.getLast?_reverse] at h
  exact head_dropWhile _ _ c h

lemma mem_replaceDD (cs : List Char) : ∀ c ∈ replaceDD cs, c ∈ cs := by
  induction cs using replaceDD.induct with
  | case1 => simp [replaceDD]
  | case2 c => simp [replaceDD]
  | case3 c1 c2 rest hdd ih =>
    intro c hc
    rw [replaceDD, if_pos hdd] at hc
    rcases List.mem_cons.mp hc with h | hc
    · rw [h, ← hdd.1]
      exact List.mem_cons_self _ _
    · exact List.mem_cons_of_mem _ (List.mem_cons_of_mem _ (ih c hc))
  | case4 c1 c2 rest hdd ih =>
    intro c hc
    rw [replaceDD, if_neg hdd] at hc
    rcases List.mem_cons.mp hc with h | hc
    · rw [h]
      exact List.mem_cons_self _ _
    · exact List.mem_cons_of_mem _ (ih c hc)

lemma mem_collapseFuel (fuel : ℕ) : ∀ cs : List Char, ∀ c ∈ collapseDashesFuel fuel cs, c ∈ cs := by
  induction fuel with
  | zero => intro cs c hc; exact hc
  | succ fuel ih =>
    intro cs c hc
    rw [collapseDashesFuel] at hc
    by_cases h : hasDD cs = true
    · rw [if_pos h] at hc
      exact mem_replaceDD cs c (ih _ c hc)
    · rw [if_neg h] at hc
      exact hc

lemma mem_stripChars (cs : List Char) : ∀ c ∈ stripChars cs, c ∈ cs := by
  intro c hc
  unfold stripChars at hc
  rw [List.mem_reverse] at hc
  have h1 := (List.dropWhile_sublist (l := (cs.dropWhile stripSet).reverse) (p := stripSet)).mem hc
  rw [List.mem_reverse] at h1
  exact (List.dropWhile_sublist (l := cs) (p := stripSet)).mem h1


lemma mem_ascii_only (isAlnum : Char → Bool) (lower : Char → List Char)
    (normalized : List Char) :
    ∀ c ∈ normalized.foldr
      (fun c acc =>
        if isAlnum c then lower c ++ acc
        else if c = ' ' ∨ c = '-' ∨ c = '_' then '-' :: acc
        else acc) [],
      c = '-' ∨ ∃ c0, c0 ∈ normalized ∧ isAlnum c0 = true ∧ c ∈ lower c0 := by
  induction normalized with
  | nil => simp
  | cons a rest ih =>
    intro c hc
    simp only [List.foldr_cons] at hc
    by_cases h1 : isAlnum a = true
    · rw [if_pos h1] at hc
      rcases List.mem_append.mp hc with h | h
      · exact Or.inr ⟨a, List.mem_cons_self a rest, h1, h⟩
      · rcases ih c h with hd | ⟨c0, hm, h2, h3⟩
        · exact Or.inl hd
        · exact Or.inr ⟨c0, List.mem_cons_of_mem a hm, h2, h3⟩
    · rw [if_neg h1] at hc
      by_cases h2 : a = ' ' ∨ a = '-' ∨ a = '_'
      · rw [if_pos h2] at hc
        rcases List.mem_cons.mp hc with h | h
        · exact Or.inl h
        · rcases ih c h with hd | ⟨c0, hm, h3, h4⟩
          · exact Or.inl hd
          · exact Or.inr ⟨c0, List.mem_cons_of_mem a hm, h3, h4⟩
      · rw [if_neg h2] at hc
        rcases ih c hc with hd | ⟨c0, hm, h3, h4⟩
        · exact Or.inl hd
        · exact Or.inr ⟨c0, List.mem_cons_of_mem a hm, h3, h4⟩

lemma dropWhile_all_true (p : Char → Bool) (cs : List Char)
    (h : ∀ c ∈ cs, p c = true) : cs.dropWhile p = [] := by
  induction cs with
  | nil => rfl
  | cons a rest ih =>
    rw [List.dropWhile]
    rw [h a (List.mem_cons_self a rest)]
    exact ih (fun c hc => h c (List.mem_cons_of_mem a hc))

lemma stripChars_eq_nil_of_all (cs : List Char)
    (h : ∀ c ∈ cs, stripSet c = true) : stripChars cs = [] := by
  unfold stripChars
  rw [dropWhile_all_true _ _ h]
  rfl

lemma slugify_empty_of_no_alnum (nfkd : List Char → List Char) (isAlnum : Char → Bool)
    (lower : Char → List Char) (source : List Char)
    (h : ∀ c ∈ nfkd source, isAlnum c = false) :
    _slugify nfkd isAlnum lower source = [] := by
  unfold _slugify
  apply stripChars_eq_nil_of_all
  intro c hc
  have hmem := mem_collapseFuel _ _ c hc
  rcases mem_ascii_only isAlnum lower (nfkd source) c hmem with hd | ⟨c0, hc0mem, hc0, -⟩
  · rw [hd]
    rfl
  · rw [h c0 hc0mem] at hc0
    exact absurd hc0 (by simp)


lemma slugsFrom_get? (nfkd : List Char → List Char) (isAlnum : Char → Bool)
    (lower : Char → List Char) :
    ∀ (sts : List StickerSpec) (i k : ℕ),
      (slugsFrom nfkd isAlnum lower i sts)[k]?
        = (sts[k]?).map (fun spec => _ensure_slug nfkd isAlnum lower spec (i + k)) := by
  intro sts
  induction sts with
  | nil =>
    intro i k
    simp [slugsFrom]
  | cons spec rest ih =>
    intro i k
    cases k with
    | zero => simp [slugsFrom]
    | succ k =>
      simp only [slugsFrom, List.getElem?_cons_succ]
      rw [ih (i + 1) k]
      have harith : i + 1 + k = i + (k + 1) := by omega
      rw [harith]

/-- C10: for every choice of the Unicode collaborators (`nfkd` for NFKD
normalization, `isAlnum` for `char.isalnum()`, `lower` for
`char.lower()`): when a sticker's explicit slug is unset and its
NFKD-normalized text has no alphanumeric character (so the derived slug is
empty), the slug used for the exported `{slug}_{category}.png` filenames is
`stamp_NN` with `NN` the 1-based, two-digit zero-padded position of the
sticker.  Every non-empty derived slug contains no `--`, neither starts
nor ends with a character of `"-_ "`, and consists only of `-` and
characters of `lower c0` for alphanumeric `c0` of the normalized text —
lowercased alphanumerics; in particular, whenever `lower` is
character-wise idempotent (true of Python's `str.lower`), every slug
character other than `-` is a fixed point of `lower`, i.e. already
lowercase. -/
theorem slug_fallback_stamp_nn (nfkd : List Char → List Char)
    (isAlnum : Char → Bool) (lower : Char → List Char)
    (stickers : List StickerSpec) (k : ℕ) (spec : StickerSpec)
    (hspec : stickers[k]? = some spec)
    (hslug : spec.slug = none)
    (halnum : ∀ c ∈ nfkd spec.text, isAlnum c = false) :
    (stickerSlugs nfkd isAlnum lower stickers)[k]? = some (stampName (k + 1)) ∧
      (∀ source, _slugify nfkd isAlnum lower source ≠ [] →
        hasDD (_slugify nfkd isAlnum lower source) = false ∧
        (∀ c, (_slugify nfkd isAlnum lower source).head? = some c → stripSet c = false) ∧
        (∀ c, (_slugify nfkd isAlnum lower source).getLast? = some c → stripSet c = false) ∧
        (∀ c ∈ _slugify nfkd isAlnum lower source, c = '-' ∨
          ∃ c0, c0 ∈ nfkd source ∧ isAlnum c0 = true ∧ c ∈ lower c0) ∧
        ((∀ c0 d, d ∈ lower c0 → lower d = [d]) →
          ∀ c ∈ _slugify nfkd isAlnum lower source, c = '-' ∨ lower c = [c])) := by
  have hmem : ∀ source, ∀ c ∈ _slugify nfkd isAlnum lower source,
      c = '-' ∨ ∃ c0, c0 ∈ nfkd source ∧ isAlnum c0 = true ∧ c ∈ lower c0 := by
    intro source c hc
    unfold _slugify at hc
    have h1 := mem_collapseFuel _ _ c (mem_stripChars _ c hc)
    exact mem_ascii_only isAlnum lower (nfkd source) c h1
  constructor
  · unfold stickerSlugs
    rw [slugsFrom_get? nfkd isAlnum lower stickers 1 k, hspec]
    simp only [Option.map]
    unfold _ensure_slug
    rw [hslug]
    unfold slugFromText
    rw [slugify_empty_of_no_alnum nfkd isAlnum lower spec.text halnum]
    simp only [ne_eq, not_true_eq_false, if_false, reduceIte]
    have : 1 + k = k + 1 := by omega
    rw [this]
  · intro source hne
    refine ⟨?_, ?_, ?_, hmem source, ?_⟩
    · exact stripChars_no_dd _ (collapseDashes_no_hasDD _)
    · exact stripChars_head _
    · exact stripChars_last _
    · intro hlower c hc
      rcases hmem source c hc with hd | ⟨c0, -, -, hcl⟩
      · exact Or.inl hd
      · exact Or.inr (hlower c0 c hcl)

/-- C10 witness: with concrete collaborator instances (identity
normalization, lowercase-ASCII-letter `isAlnum`, identity `lower` — which
is character-wise idempotent), a single sticker with text `"!!!"` gets
slug `stamp_01`, and the derived slug of `"hello  world"` has no double
dash. -/
theorem slug_fallback_stamp_nn_witness :
    (stickerSlugs id (fun c => decide (97 ≤ c.toNat ∧ c.toNat ≤ 122)) (fun c => [c])
        [{ text := "!!!".toList }])[0]? = some (stampName 1) ∧
      hasDD (_slugify id (fun c => decide (97 ≤ c.toNat ∧ c.toNat ≤ 122)) (fun c => [c])
        "hello  world".toList) = false := by
  have h := slug_fallback_stamp_nn id (fun c => decide (97 ≤ c.toNat ∧ c.toNat ≤ 122))
    (fun c => [c]) [{ text := "!!!".toList }] 0
    { text := "!!!".toList } rfl rfl (by decide)
  exact ⟨h.1, (h.2 "hello  world".toList (by decide)).1⟩

/-- C9 counterexample: size dimensions are not checked for positivity —
`main_size = [0, 0]` loads as `(0, 0)` — and a malformed entry whose
elements fail integer conversion raises `ValueError` instead of being
defaulted (only `TypeError` is caught). -/
theorem config_sizes_cex :
    _as_tuple (.vlist [.vint 0, .vint 0]) 2 [370, 320] = .ok [0, 0] ∧
      _as_tuple (.vstr "ab") 2 [370, 320] = .error .valueError :=
  ⟨rfl, rfl⟩

/-- C9 (amended): on any loaded configuration, `line_spacing` lies in
`[0.1, 2.0]` and `image_area_ratio` in `[0, 0.95]` (clamped, with in-range
defaults on non-numeric input); when loading succeeds, `font_size ≥ 24` and
`scale_multiplier ≥ 2`; the three named sizes are integer pairs (length-2
lists), with the default substituted for non-iterable input — but
positivity is NOT enforced, and entries that fail integer conversion raise
`ValueError` rather than being defaulted. -/
theorem config_invariants (v w x y z : PyVal) :
    (1/10 ≤ line_spacing_load v ∧ line_spacing_load v ≤ 2) ∧
      (0 ≤ image_area_ratio_load w ∧ image_area_ratio_load w ≤ 19/20) ∧
      (∀ n, font_size_load x = .ok n → 24 ≤ n) ∧
      (∀ n, scale_multiplier_load y = .ok n → 2 ≤ n) ∧
      (∀ fb r, fb.length = 2 → _as_tuple z 2 fb = .ok r → r.length = 2) ∧
      (∀ fb : List ℤ, _as_tuple .vnone 2 fb = .ok fb) := by
  refine ⟨?_, ?_, ?_, ?_, ?_, fun fb => rfl⟩
  · unfold line_spacing_load _as_float
    cases pyFloatOpt v with
    | none => constructor <;> norm_num
    | some x =>
      constructor
      · exact le_max_left _ _
      · exact max_le (by norm_num) (min_le_left _ _)
  · unfold image_area_ratio_load _as_float
    cases pyFloatOpt w with
    | none => constructor <;> norm_num
    | some x =>
      constructor
      · exact le_max_left _ _
      · exact max_le (by norm_num) (min_le_left _ _)
  · intro n h
    unfold font_size_load at h
    cases hx : pyIntE x with
    | ok m =>
      rw [hx] at h
      simp [Except.map] at h
      omega
    | error e =>
      rw [hx] at h
      simp [Except.map] at h
  · intro n h
    unfold scale_multiplier_load at h
    cases hy : pyIntE y with
    | ok m =>
      rw [hy] at h
      simp [Except.map] at h
      omega
    | error e =>
      rw [hy] at h
      simp [Except.map] at h
  · intro fb r hfb h
    cases z with
    | vint n =>
      simp [_as_tuple] at h
      rw [← h]
      simp
    | vbool b =>
      simp [_as_tuple] at h
      rw [← h]
      simp
    | vnone =>
      simp [_as_tuple] at h
      rw [← h, hfb]
    | vnum q =>
      simp [_as_tuple] at h
      rw [← h, hfb]
    | vlist xs =>
      simp only [_as_tuple] at h
      cases hm : xs.mapM pyIntE with
      | ok items =>
        rw [hm] at h
        replace h : (if items.length ≠ 2 then (Except.ok fb : Except PyErr (List ℤ))
            else .ok items) = .ok r := h
        by_cases hl : items.length = 2
        · rw [if_neg (by omega)] at h
          cases h
          exact hl
        · rw [if_pos (by omega)] at h
          cases h
          exact hfb
      | error e =>
        rw [hm] at h
        cases e
        · replace h : (Except.ok fb : Except PyErr (List ℤ)) = .ok r := h
          cases h
          exact hfb
        · replace h : (Except.error PyErr.valueError : Except PyErr (List ℤ)) = .ok r := h
          cases h
    | vstr s =>
      simp only [_as_tuple] at h
      cases hm : (s.toList.map (fun c => String.singleton c)).mapM (fun t => pyIntE (.vstr t)) with
      | ok items =>
        rw [hm] at h
        replace h : (if items.length ≠ 2 then (Except.ok fb : Except PyErr (List ℤ))
            else .ok items) = .ok r := h
        by_cases hl : items.length = 2
        · rw [if_neg (by omega)] at h
          cases h
          exact hl
        · rw [if_pos (by omega)] at h
          cases h
          exact hfb
      | error e =>
        rw [hm] at h
        cases e
        · replace h : (Except.ok fb : Except PyErr (List ℤ)) = .ok r := h
          cases h
          exact hfb
        · replace h : (Except.error PyErr.valueError : Except PyErr (List ℤ)) = .ok r := h
          cases h

/-- C9 witness: concrete loads — a non-numeric spacing falls back to 1.05,
a too-large ratio clamps to 0.95, small font/scale values are raised to the
minimums, and a non-iterable size input yields the default pair. -/
theorem config_invariants_witness :
    ((1/10 : ℚ) ≤ line_spacing_load (.vstr "abc") ∧ line_spacing_load (.vstr "abc") ≤ 2) ∧
      ((0 : ℚ) ≤ image_area_ratio_load (.vnum 5) ∧ image_area_ratio_load (.vnum 5) ≤ 19/20) ∧
      (24 : ℤ) ≤ 24 ∧ (2 : ℤ) ≤ 2 ∧ ([370, 320] : List ℤ).length = 2 ∧
      _as_tuple .vnone 2 [96, 74] = .ok [96, 74] := by
  have h := config_invariants (.vstr "abc") (.vnum 5) (.vint 10) (.vint 1) (.vnum (1/2))
  exact ⟨h.1, h.2.1, h.2.2.1 24 rfl, h.2.2.2.1 2 rfl,
    h.2.2.2.2.1 [370, 320] [370, 320] rfl rfl, h.2.2.2.2.2 [96, 74]⟩

end LineStamp
